import Mathlib

/-!
Shallow embedding of the core of `src/src/EncoderLame.cpp` (the Kodi LAME
audio-encoder add-on): the chunked PCM encode loop (`CEncoderLame::Encode`),
stream start (`CEncoderLame::Start`), stream finalisation
(`CEncoderLame::Finish`) and the UTF-8 to UTF-16LE transcoder
(`CEncoderLame::ToUtf16`).

External library calls (lame, iconv) are modelled as oracles: a function
`oracle : Nat → Int` gives the return value of the i-th call to
`lame_encode_buffer_interleaved` inside one `Encode` call; scalar oracle
parameters stand for the results of `lame_init_params`,
`lame_get_id3v1_tag`, `lame_get_id3v2_tag`, `lame_encode_flush`,
`lame_get_lametag_frame`, `id3tag_set_genre` and `iconv`.  Sink activity
(`Write`, `Seek`) is recorded as data in the result structures.  The
`while (bytes_left)` loop of `Encode` is embedded fuel-indexed: a `none`
result means the loop has not exited within the given number of
iterations (and, as proved below, for inputs with a partial trailing
frame it exits for no amount of fuel at all).
-/

namespace EncoderLame

/-- Result of one `Encode` call: `ok consumed writes` models a normal
return (`return numBytesRead - bytes_left`) after emitting the listed
`Write` byte counts, `err writes` models the `return -1` error paths
after emitting the listed `Write` byte counts. -/
inductive EncodeRes where
  | ok : Nat → List Nat → EncodeRes
  | err : List Nat → EncodeRes
  deriving DecidableEq, Repr

/-- The `while (bytes_left)` loop of `CEncoderLame::Encode`
(EncoderLame.cpp lines 173-185), fuel-indexed.  `total` is the original
`numBytesRead`, `bytesLeft` is `bytes_left`, `idx` counts the calls to
`lame_encode_buffer_interleaved` made so far in this `Encode` call (the
oracle is consulted at `idx`), and `ws` accumulates the byte counts
passed to `Write`, most recent first.  Each iteration takes
`frames = min (bytesLeft / 4) 4096` (with `bytes_per_frame = 2 * 2 = 4`),
returns `-1` if the encoder reported a negative byte count, otherwise
writes the produced bytes and advances by `frames * 4` consumed bytes. -/
def encodeLoop (oracle : Nat → Int) : Nat → Nat → Nat → Nat → List Nat → Option EncodeRes
  | 0, total, bytesLeft, _, ws =>
      if bytesLeft = 0 then some (.ok (total - bytesLeft) ws.reverse) else none
  | fuel + 1, total, bytesLeft, idx, ws =>
      if bytesLeft = 0 then some (.ok (total - bytesLeft) ws.reverse)
      else
        let frames := min (bytesLeft / 4) 4096
        let written := oracle idx
        if written < 0 then some (.err ws.reverse)
        else encodeLoop oracle fuel total (bytesLeft - frames * 4) (idx + 1)
               (written.toNat :: ws)

/-- `CEncoderLame::Encode` (EncoderLame.cpp lines 164-188).  Returns
`some (.err [])` immediately when no encoder handle exists
(`if (!m_encoder) return -1`), otherwise runs the batching loop on
`numBytesRead` input bytes. -/
def Encode (hasEncoder : Bool) (oracle : Nat → Int) (fuel numBytesRead : Nat) :
    Option EncodeRes :=
  if hasEncoder then encodeLoop oracle fuel numBytesRead numBytesRead 0 []
  else some (.err [])

/-- The caller-supplied metadata (`kodi::addon::AudioEncoderInfoTag`)
as read by `CEncoderLame::Start`. -/
structure AudioTag where
  channels : Nat
  bitsPerSample : Nat
  samplerate : Nat
  title : String
  artist : String
  albumArtist : String
  album : String
  releaseDate : String
  genre : String
  comment : String
  track : Nat
  deriving DecidableEq, Repr

/-- Observable outcome of `CEncoderLame::Start`: the boolean return
value, the byte counts passed to `Write` (in order), the value of
`m_audio_pos` after the call, and the genre stored in the lame id3 tag
state by `id3tag_set_genre` (`none` if never successfully set). -/
structure StartOut where
  ok : Bool
  writes : List Nat
  audio_pos : Nat
  genreField : Option String
  deriving DecidableEq, Repr

/-- `id3tag_set_genre` modelled against an oracle `genreOk` telling
which strings lame's genre handling accepts: on success the tag's genre
field becomes the given string and `0` is returned; on failure the field
is unchanged and the sentinel `-1` is returned. -/
def id3tag_set_genre (genreOk : String → Bool) (cur : Option String) (s : String) :
    Option String × Int :=
  if genreOk s then (some s, 0) else (cur, -1)

/-- `CEncoderLame::Start` (EncoderLame.cpp lines 70-162).  `hasEncoder`
models `m_encoder != nullptr`, `audioPos0` the value of `m_audio_pos` on
entry, `genreOk` the genre acceptance oracle, `initParamsRes` the result
of `lame_init_params`, `useVer2` the `id3version == 2` setting, and
`tagLenV1`/`tagLenV2` the lengths produced by `lame_get_id3v1_tag` /
`lame_get_id3v2_tag`.  Fails (returning with no writes and `m_audio_pos`
untouched) when the handle is missing, when the format is not 2-channel
16-bit, or when `lame_init_params` is negative; otherwise writes the
composed tag when its length is nonzero and records that length in
`m_audio_pos`. -/
def Start (hasEncoder : Bool) (audioPos0 : Nat) (tag : AudioTag)
    (genreOk : String → Bool) (initParamsRes : Int) (useVer2 : Bool)
    (tagLenV1 tagLenV2 : Nat) : StartOut :=
  if ¬ hasEncoder then ⟨false, [], audioPos0, none⟩
  else if tag.channels ≠ 2 ∨ tag.bitsPerSample ≠ 16 then ⟨false, [], audioPos0, none⟩
  else
    let r1 := id3tag_set_genre genreOk none tag.genre
    let g := if r1.2 = -1 then (id3tag_set_genre genreOk r1.1 "Other").1 else r1.1
    if initParamsRes < 0 then ⟨false, [], audioPos0, g⟩
    else
      let tagLength := if useVer2 then tagLenV2 else tagLenV1
      if tagLength ≠ 0 then ⟨true, [tagLength], tagLength, g⟩
      else ⟨true, [], audioPos0, g⟩

/-- Observable outcome of `CEncoderLame::Finish`: the boolean return
value, the byte count written after the flush (`none` if the flush write
was never reached), the byte count of the trailing id3v1 tag write, the
`Seek` target, and the byte count of the patch `Write` after the seek. -/
structure FinishOut where
  ok : Bool
  flushWrite : Option Nat
  trailerWrite : Option Nat
  seekTo : Option Nat
  patchWrite : Option Nat
  deriving DecidableEq, Repr

/-- `CEncoderLame::Finish` (EncoderLame.cpp lines 190-216).
`hasEncoder` models `m_encoder != nullptr`, `audioPos` the stored
`m_audio_pos`, `flushRes` the result of `lame_encode_flush`, `id3v1Res`
of `lame_get_id3v1_tag`, and `lameTagRes` of `lame_get_lametag_frame`.
Fails when the handle is missing or the flush is negative; otherwise
writes the flushed bytes, writes the id3v1 tag when its length is
positive, and seeks back to `m_audio_pos` to patch the LAME/Xing frame
exactly when `m_audio_pos` is nonzero and the frame length positive. -/
def Finish (hasEncoder : Bool) (audioPos : Nat) (flushRes id3v1Res lameTagRes : Int) :
    FinishOut :=
  if ¬ hasEncoder then ⟨false, none, none, none, none⟩
  else if flushRes < 0 then ⟨false, none, none, none, none⟩
  else
    let fw := some flushRes.toNat
    let tw := if id3v1Res > 0 then some id3v1Res.toNat else none
    if audioPos ≠ 0 ∧ lameTagRes > 0 then
      ⟨true, fw, tw, some audioPos, some lameTagRes.toNat⟩
    else ⟨true, fw, tw, none, none⟩

/-- Overwrite the buffer's 16-bit units starting at index `i` with the
values `vs` (modelling iconv's output pointer starting at `&dst[1]`). -/
def setFrom : List Nat → Nat → List Nat → List Nat
  | buf, _, [] => buf
  | buf, i, v :: vs => setFrom (buf.set i v) (i + 1) vs

/-- `CEncoderLame::ToUtf16` (EncoderLame.cpp lines 218-246), viewed as a
list of 16-bit units.  `src` is the input string as UTF-8 bytes (`none`
for a null pointer), `allocOk` models whether `calloc` succeeds,
`iconvOpenOk` whether `iconv_open` succeeds, and `conv` is the oracle
for iconv's UTF-8 to UTF-16LE conversion (input bytes to output units).
With `l` the input length and `n = (l + 1) * 4`, `calloc(n + 4, 4)`
yields `2 * (n + 4)` zeroed units; `dst[0]` is set to the BOM `0xfeff`,
and when `iconv_open` succeeded the converted units (at most the
`avail = n` bytes, i.e. `n / 2` units) are written from `dst[1]` on. -/
def ToUtf16 (src : Option (List Nat)) (allocOk iconvOpenOk : Bool)
    (conv : List Nat → List Nat) : Option (List Nat) :=
  match src with
  | none => none
  | some s =>
    if allocOk then
      let l := s.length
      let n := (l + 1) * 4
      let buf := (List.replicate (2 * (n + 4)) 0).set 0 0xfeff
      some (if iconvOpenOk then setFrom buf 1 ((conv s).take (n / 2)) else buf)
    else none

/-- Once `bytes_left` is zero the loop exits at any fuel, returning the
accumulated writes and `total - 0` consumed bytes. -/
lemma encodeLoop_bytesLeft_zero (oracle : Nat → Int) (fuel total idx : Nat) (ws : List Nat) :
    encodeLoop oracle fuel total 0 idx ws = some (.ok total ws.reverse) := by
  cases fuel <;> simp [encodeLoop]

/-- If `bytes_left` is not a multiple of the 4-byte frame size, the loop
never exits: once fewer than 4 bytes remain, `frames` is computed as `0`,
the iteration consumes nothing, and (with non-negative encoder results)
the loop repeats forever.  Formally: for every fuel the loop yields
`none`. -/
lemma encodeLoop_not_dvd_none (oracle : Nat → Int) (hpos : ∀ i, 0 ≤ oracle i) :
    ∀ fuel total bytesLeft idx ws, ¬ (4 ∣ bytesLeft) →
      encodeLoop oracle fuel total bytesLeft idx ws = none := by
  intro fuel
  induction fuel with
  | zero =>
      intro total bytesLeft idx ws hnd
      have hne : bytesLeft ≠ 0 := by
        intro h; exact hnd (h ▸ dvd_zero 4)
      simp [encodeLoop, hne]
  | succ n ih =>
      intro total bytesLeft idx ws hnd
      have hne : bytesLeft ≠ 0 := by
        intro h; exact hnd (h ▸ dvd_zero 4)
      have hnn : ¬ oracle idx < 0 := not_lt.mpr (hpos idx)
      have hle : min (bytesLeft / 4) 4096 * 4 ≤ bytesLeft :=
        le_trans (Nat.mul_le_mul_right 4 (min_le_left _ _)) (Nat.div_mul_le_self _ _)
      have hnd2 : ¬ (4 ∣ (bytesLeft - min (bytesLeft / 4) 4096 * 4)) := by
        intro hdvd
        apply hnd
        have h1 : (4 : Nat) ∣ min (bytesLeft / 4) 4096 * 4 := dvd_mul_left 4 _
        have h2 := hdvd.add h1
        rwa [Nat.sub_add_cancel hle] at h2
      simp only [encodeLoop, hne, if_false, hnn, ite_false]
      exact ih total _ (idx + 1) _ hnd2

/-- On a whole-frame `bytes_left` (a multiple of 4) with non-negative
encoder results, every iteration consumes at least one frame, so the
loop exits within `bytesLeft` iterations with everything consumed. -/
lemma encodeLoop_dvd_ok (oracle : Nat → Int) (hpos : ∀ i, 0 ≤ oracle i) :
    ∀ fuel total bytesLeft idx ws, 4 ∣ bytesLeft → bytesLeft ≤ 4 * fuel →
      ∃ out, encodeLoop oracle fuel total bytesLeft idx ws = some (.ok total out) := by
  intro fuel
  induction fuel with
  | zero =>
      intro total bytesLeft idx ws _ hle
      have h0 : bytesLeft = 0 := Nat.le_zero.mp (by simpa using hle)
      subst h0
      exact ⟨ws.reverse, by simp [encodeLoop]⟩
  | succ n ih =>
      intro total bytesLeft idx ws hdvd hle
      by_cases h0 : bytesLeft = 0
      · subst h0
        exact ⟨ws.reverse, by simp [encodeLoop]⟩
      · have h4 : 4 ≤ bytesLeft := Nat.le_of_dvd (Nat.pos_of_ne_zero h0) hdvd
        have hf1 : 1 ≤ min (bytesLeft / 4) 4096 :=
          le_min (Nat.one_le_div_iff (by norm_num) |>.mpr h4) (by norm_num)
        have hfle : min (bytesLeft / 4) 4096 * 4 ≤ bytesLeft :=
          le_trans (Nat.mul_le_mul_right 4 (min_le_left _ _)) (Nat.div_mul_le_self _ _)
        have hdvd2 : 4 ∣ (bytesLeft - min (bytesLeft / 4) 4096 * 4) :=
          (Nat.dvd_sub' hdvd (dvd_mul_left 4 _))
        have hle2 : bytesLeft - min (bytesLeft / 4) 4096 * 4 ≤ 4 * n := by
          have h44 : 4 ≤ min (bytesLeft / 4) 4096 * 4 := by
            calc 4 = 1 * 4 := (one_mul 4).symm
            _ ≤ min (bytesLeft / 4) 4096 * 4 := Nat.mul_le_mul_right 4 hf1
          have := Nat.sub_le_sub_left h44 bytesLeft
          have h2 : bytesLeft - min (bytesLeft / 4) 4096 * 4 ≤ bytesLeft - 4 :=
            Nat.sub_le_sub_left h44 bytesLeft
          have h3 : bytesLeft - 4 ≤ 4 * (n + 1) - 4 := Nat.sub_le_sub_right hle 4
          have h5 : 4 * (n + 1) - 4 = 4 * n := by omega
          omega
        have hnn : ¬ oracle idx < 0 := not_lt.mpr (hpos idx)
        obtain ⟨out, hout⟩ := ih total (bytesLeft - min (bytesLeft / 4) 4096 * 4) (idx + 1)
          ((oracle idx).toNat :: ws) hdvd2 hle2
        refine ⟨out, ?_⟩
        simp only [encodeLoop, h0, if_false, hnn, ite_false]
        exact hout

/-- Invariant-carrying specification of the loop's error accounting:
starting from call index `idx` with the (reversed) writes made so far
equal to the encoder outputs of calls `0..idx-1`, all of them
non-negative, a normal return means every performed encoder call was
non-negative, and an error return reports exactly the writes
`(oracle 0).toNat, …, (oracle (k-1)).toNat` of the `k` successful calls
before the failing call `k`, with `oracle k < 0`. -/
lemma encodeLoop_error_spec (oracle : Nat → Int) :
    ∀ fuel total bytesLeft idx ws,
      ws.reverse = (List.range idx).map (fun i => (oracle i).toNat) →
      (∀ i < idx, 0 ≤ oracle i) →
      ((∀ c w, encodeLoop oracle fuel total bytesLeft idx ws = some (.ok c w) →
          ∀ i < w.length, 0 ≤ oracle i) ∧
       (∀ w, encodeLoop oracle fuel total bytesLeft idx ws = some (.err w) →
          oracle w.length < 0 ∧ (∀ i < w.length, 0 ≤ oracle i) ∧
          w = (List.range w.length).map (fun i => (oracle i).toNat))) := by
  intro fuel
  induction fuel with
  | zero =>
      intro total bytesLeft idx ws hws hnn
      have hlen : ws.length = idx := by
        have := congrArg List.length hws
        simpa using this
      constructor
      · intro c w hok i hi
        by_cases h0 : bytesLeft = 0
        · simp [encodeLoop, h0] at hok
          obtain ⟨_, hw⟩ := hok
          apply hnn
          rw [← hw] at hi
          simpa [hlen] using hi
        · simp [encodeLoop, h0] at hok
      · intro w herr
        by_cases h0 : bytesLeft = 0 <;> simp [encodeLoop, h0] at herr
  | succ n ih =>
      intro total bytesLeft idx ws hws hnn
      have hlen : ws.length = idx := by
        have := congrArg List.length hws
        simpa using this
      by_cases h0 : bytesLeft = 0
      · constructor
        · intro c w hok i hi
          simp [encodeLoop, h0] at hok
          obtain ⟨_, hw⟩ := hok
          apply hnn
          rw [← hw] at hi
          simpa [hlen] using hi
        · intro w herr
          simp [encodeLoop, h0] at herr
      · by_cases hneg : oracle idx < 0
        · constructor
          · intro c w hok
            simp [encodeLoop, h0, hneg] at hok
          · intro w herr
            simp [encodeLoop, h0, hneg] at herr
            subst herr
            rw [hws, List.length_map, List.length_range]
            exact ⟨hneg, hnn, rfl⟩
        · have hws2 : ((oracle idx).toNat :: ws).reverse
              = (List.range (idx + 1)).map (fun i => (oracle i).toNat) := by
            simp [List.range_succ, hws]
          have hnn2 : ∀ i < idx + 1, 0 ≤ oracle i := by
            intro i hi
            rcases Nat.lt_succ_iff_lt_or_eq.mp hi with h | h
            · exact hnn i h
            · subst h; exact not_lt.mp hneg
          have := ih total (bytesLeft - min (bytesLeft / 4) 4096 * 4) (idx + 1)
            ((oracle idx).toNat :: ws) hws2 hnn2
          constructor
          · intro c w hok
            apply this.1 c w
            simp only [encodeLoop, h0, if_false, hneg, ite_false] at hok
            exact hok
          · intro w herr
            apply this.2 w
            simp only [encodeLoop, h0, if_false, hneg, ite_false] at herr
            exact herr

/-- C1: with a live encoder handle and non-negative (here: zero-byte)
encoder results, an `Encode` call on an input whose length leaves a
trailing remainder of 1, 2 or 3 bytes beyond whole 4-byte frames never
returns at all — for every iteration bound the loop is still running —
instead of returning a consumed count that excludes the remainder.
Shown at input lengths 5, 6 and 7 (remainders 1, 2, 3). -/
theorem encode_partial_frame_never_returns (fuel : Nat) :
    Encode true (fun _ => 0) fuel 5 = none ∧
    Encode true (fun _ => 0) fuel 6 = none ∧
    Encode true (fun _ => 0) fuel 7 = none := by
  have hpos : ∀ i, 0 ≤ (fun _ : Nat => (0 : Int)) i := fun _ => le_refl 0
  refine ⟨?_, ?_, ?_⟩ <;>
    simpa [Encode] using encodeLoop_not_dvd_none _ hpos fuel _ _ 0 [] (by decide)

/-- C10: for an input whose byte length `n` is a whole multiple of 4
(zero included), with a live encoder handle and non-negative results
from every underlying encode call, the batching loop terminates (within
`n` iterations) and the call returns exactly `n` consumed bytes. -/
theorem encode_whole_frames_consumes_all (oracle : Nat → Int) (n : Nat)
    (h4 : 4 ∣ n) (hpos : ∀ i, 0 ≤ oracle i) :
    ∃ ws, Encode true oracle n n = some (.ok n ws) := by
  have h := encodeLoop_dvd_ok oracle hpos n n n 0 [] h4 (by omega)
  simpa [Encode] using h

/-- Witness for C10 at `n = 8` with encoder outputs of 5 bytes. -/
theorem encode_whole_frames_consumes_all_witness :
    ∃ ws, Encode true (fun _ => 5) 8 8 = some (.ok 8 ws) :=
  encode_whole_frames_consumes_all (fun _ => 5) 8 (by decide) (fun _ => by norm_num)

/-- C2 (amended): for an input of exactly `N` whole frames with
`1 ≤ N ≤ 4096`, a live encoder handle and a non-negative result from the
underlying encode call, `Encode` consumes and returns exactly `N * 4`
bytes in a single pass of the batching loop (exactly one encoder call
and one `Write`).  The original claim also covered `N = 0`, where the
loop body is never entered (zero passes, see the counterexample). -/
theorem encode_single_batch (oracle : Nat → Int) (fuel N : Nat)
    (h1 : 1 ≤ N) (h2 : N ≤ 4096) (h0 : 0 ≤ oracle 0) :
    Encode true oracle (fuel + 1) (N * 4) = some (.ok (N * 4) [(oracle 0).toNat]) := by
  have hne : N * 4 ≠ 0 := by omega
  have hdiv : N * 4 / 4 = N := Nat.mul_div_cancel N (by norm_num)
  have hmin : min (N * 4 / 4) 4096 = N := by rw [hdiv]; exact min_eq_left h2
  have hnn : ¬ oracle 0 < 0 := not_lt.mpr h0
  simp only [Encode, if_true]
  simp only [encodeLoop, hne, if_false, hmin, hnn, ite_false]
  rw [Nat.sub_self, encodeLoop_bytesLeft_zero]
  simp

/-- Witness for the amended C2 at `N = 3` with an encoder output of 7
bytes: 12 bytes consumed, one write. -/
theorem encode_single_batch_witness :
    Encode true (fun _ => 7) 1 (3 * 4) = some (.ok (3 * 4) [7]) :=
  encode_single_batch (fun _ => 7) 0 3 (by decide) (by decide) (by decide)

/-- C2 counterexample: at `N = 0` (empty input, `0 * 4` bytes, which the
claim's range `N ≤ 4096` includes) the call returns an empty write list:
the batching loop performed zero passes, not the single pass the claim
states (each pass appends exactly one `Write` count to the list). -/
theorem encode_zero_frames_zero_passes :
    Encode true (fun _ => 0) 1 (0 * 4) = some (.ok (0 * 4) []) ∧
    ([] : List Nat).length ≠ 1 := by
  exact ⟨by decide, by decide⟩

/-- C7: `Encode` returns the negative sentinel exactly when the handle
is absent or a performed encoder call is negative.  With no handle it
returns `-1` with no writes; a normal return means every performed
encoder call was non-negative; an error return after `k` successful
calls means call `k` was negative, calls `0..k-1` were non-negative, and
the writes already emitted in this call are exactly their outputs — no
write is performed for the failing call or after it. -/
theorem encode_error_accounting (oracle : Nat → Int) (fuel n : Nat) :
    Encode false oracle fuel n = some (.err []) ∧
    (∀ c w, Encode true oracle fuel n = some (.ok c w) → ∀ i < w.length, 0 ≤ oracle i) ∧
    (∀ w, Encode true oracle fuel n = some (.err w) →
       oracle w.length < 0 ∧ (∀ i < w.length, 0 ≤ oracle i) ∧
       w = (List.range w.length).map (fun i => (oracle i).toNat)) := by
  have hspec := encodeLoop_error_spec oracle fuel n n 0 [] (by simp) (by omega)
  refine ⟨by simp [Encode], ?_, ?_⟩
  · intro c w hok
    exact hspec.1 c w (by simpa [Encode] using hok)
  · intro w herr
    exact hspec.2 w (by simpa [Encode] using herr)

/-- Witness for C7: with no handle the sentinel is returned with no
writes, and a first-call encoder failure on a 4-byte input yields the
sentinel with an empty write list and a negative failing call. -/
theorem encode_error_accounting_witness :
    Encode false (fun _ => (-1 : Int)) 1 4 = some (.err []) ∧
    (fun _ : Nat => (-1 : Int)) (List.length ([] : List Nat)) < 0 := by
  have h := encode_error_accounting (fun _ => (-1 : Int)) 1 4
  exact ⟨h.1, (h.2.2 [] (by decide)).1⟩

/-- C3: with a live encoder handle, `Start` on a tag whose channel count
is not 2 or whose bit depth is not 16 returns failure, performs no sink
writes, leaves `m_audio_pos` at its prior value, and never touches the
genre field. -/
theorem start_rejects_bad_format (audioPos0 : Nat) (tag : AudioTag)
    (genreOk : String → Bool) (initParamsRes : Int) (useVer2 : Bool)
    (tagLenV1 tagLenV2 : Nat)
    (hbad : tag.channels ≠ 2 ∨ tag.bitsPerSample ≠ 16) :
    Start true audioPos0 tag genreOk initParamsRes useVer2 tagLenV1 tagLenV2
      = ⟨false, [], audioPos0, none⟩ := by
  simp [Start, hbad]

/-- Witness for C3: a mono 16-bit tag is rejected with no writes and an
unchanged audio position of 7. -/
theorem start_rejects_bad_format_witness :
    Start true 7 ⟨1, 16, 44100, "t", "a", "aa", "al", "2020", "Rock", "c", 1⟩
      (fun _ => true) 0 false 128 0 = ⟨false, [], 7, none⟩ :=
  start_rejects_bad_format 7 _ (fun _ => true) 0 false 128 0 (by decide)

/-- C4: on a successful `Start`, when the retrieved tag length (v2 tag
when the id3version setting is 2, v1 tag otherwise) is nonzero, exactly
that one tag write is emitted and `m_audio_pos` becomes that length;
when the tag length is zero nothing is written and `m_audio_pos` keeps
its prior value. -/
theorem start_records_tag_length (audioPos0 : Nat) (tag : AudioTag)
    (genreOk : String → Bool) (initParamsRes : Int) (useVer2 : Bool)
    (tagLenV1 tagLenV2 : Nat)
    (hok : (Start true audioPos0 tag genreOk initParamsRes useVer2 tagLenV1 tagLenV2).ok
      = true) :
    ((if useVer2 then tagLenV2 else tagLenV1) ≠ 0 →
       (Start true audioPos0 tag genreOk initParamsRes useVer2 tagLenV1 tagLenV2).writes
           = [if useVer2 then tagLenV2 else tagLenV1] ∧
       (Start true audioPos0 tag genreOk initParamsRes useVer2 tagLenV1 tagLenV2).audio_pos
           = (if useVer2 then tagLenV2 else tagLenV1)) ∧
    ((if useVer2 then tagLenV2 else tagLenV1) = 0 →
       (Start true audioPos0 tag genreOk initParamsRes useVer2 tagLenV1 tagLenV2).writes
           = [] ∧
       (Start true audioPos0 tag genreOk initParamsRes useVer2 tagLenV1 tagLenV2).audio_pos
           = audioPos0) := by
  by_cases hbad : tag.channels ≠ 2 ∨ tag.bitsPerSample ≠ 16
  · simp [Start, hbad] at hok
  · by_cases hinit : initParamsRes < 0
    · simp [Start, hbad, hinit] at hok
    · by_cases htl : (if useVer2 then tagLenV2 else tagLenV1) = 0
      · simp [Start, hbad, hinit, htl]
      · simp [Start, hbad, hinit, htl]

/-- Witness for C4: a successful v1-tag start with tag length 128
writes exactly those 128 bytes and records `m_audio_pos = 128`. -/
theorem start_records_tag_length_witness :
    (Start true 0 ⟨2, 16, 44100, "t", "a", "aa", "al", "2020", "Rock", "c", 1⟩
        (fun _ => true) 0 false 128 0).writes = [128] ∧
    (Start true 0 ⟨2, 16, 44100, "t", "a", "aa", "al", "2020", "Rock", "c", 1⟩
        (fun _ => true) 0 false 128 0).audio_pos = 128 := by
  have h := start_records_tag_length 0
    ⟨2, 16, 44100, "t", "a", "aa", "al", "2020", "Rock", "c", 1⟩
    (fun _ => true) 0 false 128 0 (by decide)
  exact h.1 (by decide)

/-- C9: during a `Start` that passes the format check, if the genre
oracle rejects the supplied genre string (the `-1` sentinel from
`id3tag_set_genre`) and accepts the default "Other", the tag's composed
genre field ends up as "Other". -/
theorem start_genre_fallback (audioPos0 : Nat) (tag : AudioTag)
    (genreOk : String → Bool) (initParamsRes : Int) (useVer2 : Bool)
    (tagLenV1 tagLenV2 : Nat)
    (hch : tag.channels = 2) (hbits : tag.bitsPerSample = 16)
    (hg : genreOk tag.genre = false) (hother : genreOk "Other" = true) :
    (Start true audioPos0 tag genreOk initParamsRes useVer2 tagLenV1 tagLenV2).genreField
      = some "Other" := by
  by_cases hinit : initParamsRes < 0
  · simp [Start, hch, hbits, hinit, id3tag_set_genre, hg, hother]
  · by_cases htl : (if useVer2 then tagLenV2 else tagLenV1) = 0
    · simp [Start, hch, hbits, hinit, htl, id3tag_set_genre, hg, hother]
    · simp [Start, hch, hbits, hinit, htl, id3tag_set_genre, hg, hother]

/-- Witness for C9: an unrecognized genre string is replaced by "Other"
in the composed tag. -/
theorem start_genre_fallback_witness :
    (Start true 0 ⟨2, 16, 44100, "t", "a", "aa", "al", "2020", "NotAGenre", "c", 1⟩
        (fun s => s == "Other") 0 false 128 0).genreField = some "Other" :=
  start_genre_fallback 0 _ (fun s => s == "Other") 0 false 128 0
    rfl rfl (by decide) (by decide)

/-- C5: in a `Finish` call that passes the flush step (live handle,
non-negative flush result), the seek back to `m_audio_pos` together with
the patch write of the LAME/Xing frame happens exactly when
`m_audio_pos` is nonzero and the frame length is positive; otherwise no
seek and no patch write occur. -/
theorem finish_patch_iff (audioPos : Nat) (flushRes id3v1Res lameTagRes : Int)
    (hflush : 0 ≤ flushRes) :
    (((Finish true audioPos flushRes id3v1Res lameTagRes).seekTo = some audioPos ∧
      (Finish true audioPos flushRes id3v1Res lameTagRes).patchWrite
        = some lameTagRes.toNat) ↔ (audioPos ≠ 0 ∧ 0 < lameTagRes)) ∧
    (¬ (audioPos ≠ 0 ∧ 0 < lameTagRes) →
       (Finish true audioPos flushRes id3v1Res lameTagRes).seekTo = none ∧
       (Finish true audioPos flushRes id3v1Res lameTagRes).patchWrite = none) := by
  have hnn : ¬ flushRes < 0 := not_lt.mpr hflush
  by_cases hcond : audioPos ≠ 0 ∧ lameTagRes > 0
  · constructor
    · simp [Finish, hnn, hcond]
    · intro hc; exact absurd hcond hc
  · constructor
    · simp only [Finish, hnn]
      simp [hcond]
    · intro _; simp [Finish, hnn, hcond]

/-- Witness for C5 at `m_audio_pos = 10` and a 200-byte LAME/Xing
frame: the sink is sought to offset 10 and 200 bytes are patched in. -/
theorem finish_patch_iff_witness :
    (Finish true 10 0 128 200).seekTo = some 10 ∧
    (Finish true 10 0 128 200).patchWrite = some ((200 : Int).toNat) :=
  ((finish_patch_iff 10 0 128 200 (by decide)).1).mpr (by decide)

/-- C6: `Finish` succeeds exactly when the encoder handle is present
and the flush result is non-negative; on failure nothing at all is
emitted — flush write, trailing id3v1 tag and summary patch are all
skipped — while zero-length trailing tag or summary frame never cause
failure. -/
theorem finish_ok_iff (hasEncoder : Bool) (audioPos : Nat)
    (flushRes id3v1Res lameTagRes : Int) :
    ((Finish hasEncoder audioPos flushRes id3v1Res lameTagRes).ok
        = (hasEncoder && decide (0 ≤ flushRes))) ∧
    ((Finish hasEncoder audioPos flushRes id3v1Res lameTagRes).ok = false →
       Finish hasEncoder audioPos flushRes id3v1Res lameTagRes
         = ⟨false, none, none, none, none⟩) := by
  cases hasEncoder with
  | false => simp [Finish]
  | true =>
      by_cases hf : flushRes < 0
      · constructor
        · simp [Finish, hf, not_le.mpr hf]
        · intro _; simp [Finish, hf]
      · have hf2 : 0 ≤ flushRes := not_lt.mp hf
        constructor
        · by_cases hcond : audioPos ≠ 0 ∧ lameTagRes > 0 <;>
            simp [Finish, hf, hcond, hf2]
        · intro hok
          by_cases hcond : audioPos ≠ 0 ∧ lameTagRes > 0 <;>
            simp [Finish, hf, hcond] at hok
  -- the zero-length cases are instances of the success equality

/-- Witness for C6: a missing handle fails with nothing emitted, and a
successful flush with zero-length trailing tag and summary still
succeeds. -/
theorem finish_ok_iff_witness :
    Finish false 3 5 5 5 = ⟨false, none, none, none, none⟩ ∧
    (Finish true 3 0 0 0).ok = (true && decide ((0 : Int) ≤ 0)) :=
  ⟨(finish_ok_iff false 3 5 5 5).2 (by decide), (finish_ok_iff true 3 0 0 0).1⟩

/-- C8: `ToUtf16` on a null input pointer returns the null result
without allocating, and on an empty string with a successful allocation
(whether or not `iconv_open` succeeds; iconv produces no output units
from no input bytes) returns a buffer whose first 16-bit unit is the BOM
`0xfeff` immediately followed by a null 16-bit unit. -/
theorem toUtf16_null_and_empty (allocOk iconvOpenOk : Bool)
    (conv : List Nat → List Nat) (hconv : conv [] = []) :
    ToUtf16 none allocOk iconvOpenOk conv = none ∧
    (ToUtf16 (some []) true iconvOpenOk conv).map (fun b => (b.get? 0, b.get? 1))
      = some (some 0xfeff, some 0) := by
  refine ⟨rfl, ?_⟩
  cases iconvOpenOk <;> simp [ToUtf16, hconv, setFrom]

/-- Witness for C8 with a conversion oracle that maps the empty byte
string to no output units. -/
theorem toUtf16_null_and_empty_witness :
    ToUtf16 none true true (fun _ => []) = none ∧
    (ToUtf16 (some []) true true (fun _ => [])).map (fun b => (b.get? 0, b.get? 1))
      = some (some 0xfeff, some 0) :=
  toUtf16_null_and_empty true true (fun _ => []) rfl

end EncoderLame
